import Mathlib

/-
Verification development for the FreeLSS 3D-scanner reconstruction pipeline
(src/src/Main.h).  The geometric types and operations (Vector3, Ray, Plane,
the angle-conversion macros) are embedded directly from the source; real32
arithmetic is modelled by exact real arithmetic (ℝ).  The pipeline stages
whose bodies are declared but not present in the source (readNextFrame,
lowpassFilter, computeAverage, triangulation, mesh building, PLY export)
are modelled from the specification, with exact rationals (ℚ) standing in
for the floating-point fields so the models stay executable.
-/

namespace freelss

/-- The constant PI from Main.h: `#define PI 3.14159265359`. -/
noncomputable def PI : ℝ := 3.14159265359

/-- Embeds `#define RADIANS_TO_DEGREES(r) ((r / (2 * PI)) * 360)`. -/
noncomputable def RADIANS_TO_DEGREES (r : ℝ) : ℝ := (r / (2 * PI)) * 360

/-- Embeds `#define DEGREES_TO_RADIANS(d) ((d / 360.0) * (2 * PI))`. -/
noncomputable def DEGREES_TO_RADIANS (d : ℝ) : ℝ := (d / 360.0) * (2 * PI)

/-- Embeds `struct Vector3` with `real x; real y; real z;` (real = float,
modelled by ℝ). -/
structure Vector3 where
  x : ℝ
  y : ℝ
  z : ℝ

/-- Embeds `real dot(const Vector3& a) const { return x * a.x + y * a.y + z * a.z; }`. -/
def Vector3.dot (v a : Vector3) : ℝ := v.x * a.x + v.y * a.y + v.z * a.z

/-- Embeds `void cross(Vector3& out, const Vector3& v) const` from Main.h:
`out.x = y * v.z - z * v.y; out.y = z * v.x - x * v.z; out.z = x * v.y - y * v.x;`.
The output parameter becomes the return value. -/
def Vector3.cross (a v : Vector3) : Vector3 :=
  { x := a.y * v.z - a.z * v.y
    y := a.z * v.x - a.x * v.z
    z := a.x * v.y - a.y * v.x }

/-- Componentwise negation, used to state antisymmetry of `Vector3.cross`. -/
def Vector3.neg (v : Vector3) : Vector3 := ⟨-v.x, -v.y, -v.z⟩

/-- The Euclidean length computed by `Vector3::normalize`:
`real len = sqrt(x * x + y * y + z * z);`. -/
noncomputable def Vector3.length (v : Vector3) : ℝ :=
  Real.sqrt (v.x * v.x + v.y * v.y + v.z * v.z)

/-- Embeds `void normalize()` from Main.h: the components are divided by
`len` with no zero-length guard (`x /= len; y /= len; z /= len;`).  IEEE
division of the components of the zero vector by its zero length produces
non-finite (NaN) components; the embedding returns `none` exactly when the
divisor is zero, i.e. when the C++ result would not be a finite real
vector, and otherwise the componentwise quotient. -/
noncomputable def Vector3.normalize (v : Vector3) : Option Vector3 :=
  if v.length = 0 then none
  else some ⟨v.x / v.length, v.y / v.length, v.z / v.length⟩

/-- Embeds `struct Plane` from Main.h: a calibrated laser plane given by a
normal and a point in the plane. -/
structure Plane where
  normal : Vector3
  point : Vector3

/-- Embeds `struct Ray` from Main.h: a camera ray with origin and direction. -/
structure Ray where
  origin : Vector3
  direction : Vector3

/-- Componentwise subtraction of vectors. -/
def Vector3.sub (a b : Vector3) : Vector3 := ⟨a.x - b.x, a.y - b.y, a.z - b.z⟩

/-- Componentwise addition of vectors. -/
def Vector3.add (a b : Vector3) : Vector3 := ⟨a.x + b.x, a.y + b.y, a.z + b.z⟩

/-- Scalar multiple of a vector. -/
def Vector3.smul (t : ℝ) (v : Vector3) : Vector3 := ⟨t * v.x, t * v.y, t * v.z⟩

/-- Modelled from the spec: the rotation about the world Y axis applied by
the Triangulation Engine (step (d) of section 4.4) to undo the turntable
rotation; the engine applies it with angle `-rotation`.  The implementation
body is not part of the provided source. -/
noncomputable def rotateAboutY (theta : ℝ) (v : Vector3) : Vector3 :=
  ⟨Real.cos theta * v.x + Real.sin theta * v.z,
   v.y,
   -Real.sin theta * v.x + Real.cos theta * v.z⟩

/-- Modelled from the spec: the ray/plane intersection of the Triangulation
Engine (section 4.4, steps (b) and (c)), whose implementation body is not
part of the provided source.  If the ray is parallel to the plane
(`dot(direction, normal) = 0`) or the intersection parameter `t` is
negative (the intersection lies behind the ray origin), the point is
rejected (`none`, a silent per-point rejection, not an error); otherwise
the intersection point `origin + t * direction` is produced. -/
noncomputable def intersectRayPlane (ray : Ray) (plane : Plane) : Option Vector3 :=
  let denom := ray.direction.dot plane.normal
  if denom = 0 then none
  else
    let t := (plane.point.sub ray.origin).dot plane.normal / denom
    if t < 0 then none
    else some (ray.origin.add (Vector3.smul t ray.direction))

/-- Modelled from the spec: the full per-point triangulation (section 4.4):
intersect the camera ray with the calibrated laser plane, then rotate the
camera-relative intersection by `-rotation` about the world Y axis.  A
rejected intersection produces no output point. -/
noncomputable def triangulate (ray : Ray) (plane : Plane) (rot : ℝ) : Option Vector3 :=
  (intersectRayPlane ray plane).map (rotateAboutY (-rot))

/-
The frame-assembly / filtering pipeline.  The bodies of
DataPoint::readNextFrame, DataPoint::lowpassFilter and
DataPoint::computeAverage are declared in Main.h but not present in the
provided source, so the pipeline is modelled from the specification
(section 4.3).  The float pixel coordinates and byte color channels are
embedded as exact rationals so the model is executable and averaging is
exact.
-/

/-- Rational-valued 3D vector used inside the executable pipeline model
(the per-point normal slot of ColoredPoint). -/
structure Vec3q where
  x : ℚ
  y : ℚ
  z : ℚ
deriving DecidableEq, Inhabited

/-- Embeds `struct PixelLocation` (sub-pixel image coordinates, real x, y);
modelled with exact rationals. -/
structure PixelLocation where
  x : ℚ
  y : ℚ
deriving DecidableEq, Inhabited

/-- Embeds `struct ColoredPoint` (real32 x, y, z; Vector3 normal; byte
r, g, b); coordinates, normal and color channels modelled as exact
rationals so that averaging in the filter model is exact. -/
structure ColoredPoint where
  x : ℚ
  y : ℚ
  z : ℚ
  normal : Vec3q
  r : ℚ
  g : ℚ
  b : ℚ
deriving DecidableEq, Inhabited

/-- Embeds `struct DataPoint` from Main.h: the unit flowing through the
pipeline (pixel, point, rotation, frame, laserSide, pseudoFrame, index);
the fixed-width integer tags are modelled as ℕ. -/
structure DataPoint where
  pixel : PixelLocation
  point : ColoredPoint
  rotation : ℚ
  frame : ℕ
  laserSide : ℕ
  pseudoFrame : ℕ
  index : ℕ
deriving DecidableEq, Inhabited

/-- The logical-frame tag of a DataPoint: the physical frame index together
with the laser side (section 4.3: logical frames are contiguous runs
sharing the same frame/laserSide tag). -/
def dataTag (d : DataPoint) : ℕ × ℕ := (d.frame, d.laserSide)

/-- Modelled from the spec: the contiguous-run grouping performed by
DataPoint::readNextFrame (section 4.3), whose body is not part of the
provided source: a flat, frame-ordered sequence of DataPoints is
partitioned into maximal contiguous runs sharing the same
frame/laserSide tag. -/
def groupRuns : List DataPoint → List (List DataPoint)
  | [] => []
  | d :: rest =>
    match groupRuns rest with
    | [] => [[d]]
    | [] :: gs => [d] :: gs
    | (e :: R) :: gs =>
      if dataTag d = dataTag e then (d :: e :: R) :: gs
      else [d] :: (e :: R) :: gs

/-- Overwrites the pseudoFrame id of a DataPoint, as frame assembly does
when it tags each logical frame (section 4.3). -/
def setPseudoFrame (i : ℕ) (d : DataPoint) : DataPoint := { d with pseudoFrame := i }

/-- Modelled from the spec: successive calls of DataPoint::readNextFrame
assign consecutive pseudoFrame ids to the logical frames, starting at i. -/
def assignPseudoFrames : ℕ → List (List DataPoint) → List (List DataPoint)
  | _, [] => []
  | i, R :: gs => R.map (setPseudoFrame i) :: assignPseudoFrames (i + 1) gs

/-- Modelled from the spec: DataPoint::readNextFrame iterated to
exhaustion — the list of logical frames of a scan, each tagged with its
pseudoFrame id (0, 1, 2, ...). -/
def readFrames (results : List DataPoint) : List (List DataPoint) :=
  assignPseudoFrames 0 (groupRuns results)

/-- The row bin a DataPoint falls into: `numRowBins` bins of equal span
`maxNumRows / numRowBins` source rows (section 4.3), so a point with pixel
row y lands in bin `floor (y * numRowBins / maxNumRows)`. -/
def binIndex (maxNumRows numRowBins : ℕ) (d : DataPoint) : ℤ :=
  ⌊d.pixel.y * numRowBins / maxNumRows⌋

/-- The members of row bin b within one logical frame. -/
def rowBin (frame : List DataPoint) (maxNumRows numRowBins : ℕ) (b : ℕ) : List DataPoint :=
  frame.filter (fun d => binIndex maxNumRows numRowBins d = (b : ℤ))

/-- Exact average of a list of rationals. -/
def avgQ (l : List ℚ) : ℚ := l.sum / l.length

/-- Modelled from the spec: DataPoint::computeAverage (declared in Main.h,
body not part of the provided source) — the representative of a bin: the
average of the members' pixel location and color, the remaining fields
taken from the first member. -/
def computeAverage (bin : List DataPoint) : DataPoint :=
  match bin with
  | [] => default
  | p :: rest =>
    let all := p :: rest
    { p with
      pixel := { x := avgQ (all.map fun d => d.pixel.x)
                 y := avgQ (all.map fun d => d.pixel.y) }
      point := { p.point with
                 r := avgQ (all.map fun d => d.point.r)
                 g := avgQ (all.map fun d => d.point.g)
                 b := avgQ (all.map fun d => d.point.b) } }

/-- The contribution of row bin b to the filtered frame: nothing when the
bin is empty, the bin's computeAverage otherwise (section 4.3: bins with
zero members contribute nothing, not a zero-valued point). -/
def binSelect (frame : List DataPoint) (maxNumRows numRowBins : ℕ) (b : ℕ) :
    Option DataPoint :=
  let bin := rowBin frame maxNumRows numRowBins b
  if bin.isEmpty then none else some (computeAverage bin)

/-- Modelled from the spec: DataPoint::lowpassFilter (declared in Main.h,
body not part of the provided source): bucket a logical frame's DataPoints
into numRowBins equal-span row bins and emit one representative DataPoint
per populated bin, in bin order. -/
def lowpassFilter (frame : List DataPoint) (maxNumRows numRowBins : ℕ) : List DataPoint :=
  (List.range numRowBins).filterMap (binSelect frame maxNumRows numRowBins)

/-- The Frame Assembler & Filter stage of the pipeline: group raw
DataPoints into logical frames, assign pseudoFrame ids, lowpass-filter
each logical frame, and concatenate the results in order. -/
def filterAssembledFrames (results : List DataPoint) (maxNumRows numRowBins : ℕ) :
    List DataPoint :=
  ((readFrames results).map (fun R => lowpassFilter R maxNumRows numRowBins)).flatten

/-- The input predicate of the idempotence property (section 8): the
sequence is already filtered and already bin-aligned — every logical frame
carries the pseudoFrame id frame assembly would assign it, its members
occupy strictly increasing row bins, and every member lies in a valid bin
(0 ≤ bin < numRowBins). -/
def alreadyAssembled (maxNumRows numRowBins : ℕ) (ys : List DataPoint) : Prop :=
  ∀ p ∈ (groupRuns ys).enumFrom 0,
    (∀ d ∈ p.2, d.pseudoFrame = p.1) ∧
    List.Chain' (fun a b : ℤ => a < b) (p.2.map (binIndex maxNumRows numRowBins)) ∧
    ∀ d ∈ p.2, 0 ≤ binIndex maxNumRows numRowBins d ∧
      binIndex maxNumRows numRowBins d < (numRowBins : ℤ)

instance (m n : ℕ) (ys : List DataPoint) : Decidable (alreadyAssembled m n ys) :=
  inferInstanceAs (Decidable (∀ p ∈ (groupRuns ys).enumFrom 0,
    (∀ d ∈ p.2, d.pseudoFrame = p.1) ∧
    List.Chain' (fun a b : ℤ => a < b) (p.2.map (binIndex m n)) ∧
    ∀ d ∈ p.2, 0 ≤ binIndex m n d ∧ binIndex m n d < (n : ℤ)))

/-- Embeds `struct FaceMap` from Main.h: the triangles as an ordered flat
sequence of unsigned vertex indices, three per triangle. -/
structure FaceMap where
  triangles : List ℕ
deriving DecidableEq, Inhabited

/-- Squared distance between two colored points; the mesh builder compares
squared lengths so no square root is needed. -/
def distSq (p q : ColoredPoint) : ℚ :=
  (p.x - q.x) ^ 2 + (p.y - q.y) ^ 2 + (p.z - q.z) ^ 2

/-- Squared distance between two points of the cloud given by index. -/
def cloudDistSq (cloud : List ColoredPoint) (i j : ℕ) : ℚ :=
  distSq (cloud.getD i default) (cloud.getD j default)

/-- Modelled from the spec: the triangles the Mesh Builder (section 4.6,
body not part of the provided source) emits for one quad of grid
neighbors with corners a (this step, this row), b (next step, this row),
c (this step, next row), d (next step, next row): skip the quad when any
edge exceeds the configured maximum (squared) edge length, otherwise
split along the shorter diagonal into two triangles (six indices). -/
def quadTriangles (cloud : List ColoredPoint) (maxEdgeSq : ℚ) (a b c d : ℕ) :
    List ℕ :=
  let diagAD := cloudDistSq cloud a d
  let diagBC := cloudDistSq cloud b c
  if cloudDistSq cloud a b ≤ maxEdgeSq ∧ cloudDistSq cloud a c ≤ maxEdgeSq ∧
      cloudDistSq cloud b d ≤ maxEdgeSq ∧ cloudDistSq cloud c d ≤ maxEdgeSq ∧
      min diagAD diagBC ≤ maxEdgeSq then
    if diagAD ≤ diagBC then [a, b, d, a, d, c] else [a, b, c, b, d, c]
  else []

/-- The triangles contributed by one pair of adjacent rotation-step
columns: each pair of row-adjacent cells in the two columns forms a quad;
quads with a missing corner (a pruned/rejected point) are skipped. -/
def rowQuadTriangles (cloud : List ColoredPoint) (maxEdgeSq : ℚ)
    (colA colB : List (Option ℕ)) : List ℕ :=
  let rows := colA.zip colB
  ((rows.zip rows.tail).map (fun q =>
    match q with
    | ((some a, some b), (some c, some d)) => quadTriangles cloud maxEdgeSq a b c d
    | _ => [])).flatten

/-- Modelled from the spec: the Mesh Builder (section 4.6, body not part
of the provided source): connect neighboring points — adjacent in row
within a rotation step and adjacent in rotation step at the same row —
into triangles over the final point cloud's index space.  The grid maps
(step, row) to the index of the surviving point in the cloud, none where
the point was rejected or pruned upstream. -/
def buildMesh (cloud : List ColoredPoint) (grid : List (List (Option ℕ)))
    (maxEdgeSq : ℚ) : FaceMap :=
  ⟨((grid.zip grid.tail).map
      (fun p => rowQuadTriangles cloud maxEdgeSq p.1 p.2)).flatten⟩

/-- Embeds `enum UnitOfLength { UL_UNKNOWN, UL_MILLIMETERS, UL_INCHES,
UL_CENTIMETERS }` from Main.h. -/
inductive UnitOfLength where
  | UL_UNKNOWN
  | UL_MILLIMETERS
  | UL_INCHES
  | UL_CENTIMETERS
deriving DecidableEq

/-- Embeds `enum PlyDataFormat { PLY_ASCII, PLY_BINARY }` from Main.h. -/
inductive PlyDataFormat where
  | PLY_ASCII
  | PLY_BINARY
deriving DecidableEq

/-- Modelled from the spec: millimeters per unit of length, supporting
ConvertUnitOfLength (declared in Main.h, body not part of the provided
source); the unknown unit is treated as millimeters. -/
def mmPerUnit : UnitOfLength → ℚ
  | .UL_UNKNOWN => 1
  | .UL_MILLIMETERS => 1
  | .UL_INCHES => 25.4
  | .UL_CENTIMETERS => 10

/-- Modelled from the spec: `ConvertUnitOfLength(value, valueUnits,
destinationUnits)` (declared in Main.h, body not part of the provided
source): rescale a length between units. -/
def ConvertUnitOfLength (value : ℚ) (valueUnits destinationUnits : UnitOfLength) : ℚ :=
  value * mmPerUnit valueUnits / mmPerUnit destinationUnits

/-- A scalar token of the serialized PLY payload: counts, list sizes and
color bytes are written as naturals, floating-point scalars as exact
rationals.  ASCII and binary serializations are both modelled at the
token level (whitespace-separated numerals or little-endian records). -/
inductive PlyToken where
  | nat (n : ℕ)
  | num (q : ℚ)
deriving DecidableEq

/-- Fixed-precision decimal formatting used by the ASCII writer: the
value is rounded to the nearest multiple of 10⁻⁶ (six decimal places),
so the absolute formatting error is at most 5·10⁻⁷. -/
def quantize (q : ℚ) : ℚ := (⌊q * 1000000 + 1 / 2⌋ : ℚ) / 1000000

/-- How a floating-point scalar survives serialization: the ASCII mode
rounds it to six decimal places, the binary mode stores it exactly (the
model carries exact rationals where the file carries real32 records). -/
def encodeScalar : PlyDataFormat → ℚ → ℚ
  | .PLY_ASCII, q => quantize q
  | .PLY_BINARY, q => q

/-- Modelled from the spec: one PLY vertex record — position converted
from internal millimeters to the requested unit of length, then normal
and color, in the declared header property order. -/
def writeVertex (fmt : PlyDataFormat) (unit : UnitOfLength) (v : ColoredPoint) :
    List PlyToken :=
  [.num (encodeScalar fmt (ConvertUnitOfLength v.x .UL_MILLIMETERS unit)),
   .num (encodeScalar fmt (ConvertUnitOfLength v.y .UL_MILLIMETERS unit)),
   .num (encodeScalar fmt (ConvertUnitOfLength v.z .UL_MILLIMETERS unit)),
   .num (encodeScalar fmt v.normal.x),
   .num (encodeScalar fmt v.normal.y),
   .num (encodeScalar fmt v.normal.z),
   .num v.r, .num v.g, .num v.b]

/-- Modelled from the spec: one PLY face record — the list size 3
followed by the three vertex indices of the triangle. -/
def writeFace : ℕ × ℕ × ℕ → List PlyToken
  | (a, b, c) => [.nat 3, .nat a, .nat b, .nat c]

/-- Modelled from the spec: the PLY export (section 6): the header's
vertex and face counts followed by the vertex records and the face
records. -/
def writePly (fmt : PlyDataFormat) (unit : UnitOfLength)
    (cloud : List ColoredPoint) (faces : List (ℕ × ℕ × ℕ)) : List PlyToken :=
  .nat cloud.length :: .nat faces.length ::
    ((cloud.map (writeVertex fmt unit)).flatten ++ (faces.map writeFace).flatten)

/-- Parse one vertex record (nine scalars in header property order). -/
def parseVertex : List PlyToken → Option (ColoredPoint × List PlyToken)
  | .num x :: .num y :: .num z :: .num nx :: .num ny :: .num nz ::
      .num r :: .num g :: .num b :: rest =>
    some (⟨x, y, z, ⟨nx, ny, nz⟩, r, g, b⟩, rest)
  | _ => none

/-- Parse the declared number of vertex records. -/
def parseVertices : ℕ → List PlyToken → Option (List ColoredPoint × List PlyToken)
  | 0, ts => some ([], ts)
  | k + 1, ts =>
    match parseVertex ts with
    | none => none
    | some (v, rest) =>
      match parseVertices k rest with
      | none => none
      | some (vs, rest2) => some (v :: vs, rest2)

/-- Parse one face record (list size 3 and three indices). -/
def parseFace : List PlyToken → Option ((ℕ × ℕ × ℕ) × List PlyToken)
  | .nat 3 :: .nat a :: .nat b :: .nat c :: rest => some ((a, b, c), rest)
  | _ => none

/-- Parse the declared number of face records. -/
def parseFaces : ℕ → List PlyToken → Option (List (ℕ × ℕ × ℕ) × List PlyToken)
  | 0, ts => some ([], ts)
  | k + 1, ts =>
    match parseFace ts with
    | none => none
    | some (f, rest) =>
      match parseFaces k rest with
      | none => none
      | some (fs, rest2) => some (f :: fs, rest2)

/-- Modelled from the spec: re-parsing a written PLY payload — read the
two counts, then that many vertex and face records, requiring the payload
to be exhausted. -/
def parsePly (ts : List PlyToken) :
    Option (List ColoredPoint × List (ℕ × ℕ × ℕ)) :=
  match ts with
  | .nat nv :: .nat nf :: rest =>
    match parseVertices nv rest with
    | none => none
    | some (vs, rest2) =>
      match parseFaces nf rest2 with
      | none => none
      | some (fs, rest3) => if rest3.isEmpty then some (vs, fs) else none
  | _ => none

/-- The vertex recovered from a written record: the position carries the
unit conversion and (in ASCII mode) the formatting rounding; normal and
color are as encoded. -/
def reparsedVertex (fmt : PlyDataFormat) (unit : UnitOfLength) (v : ColoredPoint) :
    ColoredPoint :=
  ⟨encodeScalar fmt (ConvertUnitOfLength v.x .UL_MILLIMETERS unit),
   encodeScalar fmt (ConvertUnitOfLength v.y .UL_MILLIMETERS unit),
   encodeScalar fmt (ConvertUnitOfLength v.z .UL_MILLIMETERS unit),
   ⟨encodeScalar fmt v.normal.x, encodeScalar fmt v.normal.y,
    encodeScalar fmt v.normal.z⟩,
   v.r, v.g, v.b⟩

end freelss

namespace freelss

/-- C10: for every real r, `DEGREES_TO_RADIANS (RADIANS_TO_DEGREES r) = r`
(and the conversions are mutually inverse): the `2 * PI` and `360` factors
cancel because the PI constant of Main.h is nonzero. -/
theorem degrees_radians_roundtrip (r : ℝ) :
    DEGREES_TO_RADIANS (RADIANS_TO_DEGREES r) = r ∧
    RADIANS_TO_DEGREES (DEGREES_TO_RADIANS r) = r := by
  have hPI : PI ≠ 0 := by norm_num [PI]
  constructor
  · unfold DEGREES_TO_RADIANS RADIANS_TO_DEGREES
    field_simp
    ring
  · unfold DEGREES_TO_RADIANS RADIANS_TO_DEGREES
    field_simp
    ring

/-- C9: `Vector3.cross` computes the standard right-handed cross product:
the output is orthogonal to both operands, and swapping the operands
negates the output. -/
theorem cross_orthogonal_antisymm (a b : Vector3) :
    (a.cross b).dot a = 0 ∧ (a.cross b).dot b = 0 ∧
    b.cross a = (a.cross b).neg := by
  refine ⟨?_, ?_, ?_⟩
  · simp only [Vector3.cross, Vector3.dot]
    ring
  · simp only [Vector3.cross, Vector3.dot]
    ring
  · simp only [Vector3.cross, Vector3.neg, Vector3.mk.injEq]
    refine ⟨by ring, by ring, by ring⟩

/-- C8: `Vector3.normalize` divides each component by the Euclidean length
with no zero-length guard: every vector of nonzero length normalizes to a
unit vector (its dot product with itself is 1 over exact real arithmetic),
while the zero vector divides by a zero length, yielding non-finite (NaN)
components (embedded as `none`) rather than failing or staying unchanged. -/
theorem normalize_unit_or_nan :
    (∀ v : Vector3, v.length ≠ 0 →
      ∃ u, v.normalize = some u ∧ u.dot u = 1) ∧
    Vector3.normalize ⟨0, 0, 0⟩ = none := by
  constructor
  · intro v hv
    refine ⟨⟨v.x / v.length, v.y / v.length, v.z / v.length⟩, ?_, ?_⟩
    · simp [Vector3.normalize, hv]
    · have hsq : v.length * v.length = v.x * v.x + v.y * v.y + v.z * v.z := by
        have hnn : (0:ℝ) ≤ v.x * v.x + v.y * v.y + v.z * v.z := by
          nlinarith [mul_self_nonneg v.x, mul_self_nonneg v.y, mul_self_nonneg v.z]
        simpa [Vector3.length] using Real.mul_self_sqrt hnn
      simp only [Vector3.dot]
      field_simp
      linarith [hsq]
  · have h0 : (Vector3.mk 0 0 0).length = 0 := by
      simp [Vector3.length]
    simp [Vector3.normalize, h0]

/-- Witness for C8: the unit-length conclusion holds at the concrete vector
(1, 0, 0), whose length is nonzero. -/
theorem normalize_unit_or_nan_witness :
    ∃ u, Vector3.normalize ⟨1, 0, 0⟩ = some u ∧ u.dot u = 1 := by
  have hlen : (Vector3.mk 1 0 0).length = 1 := by
    simp [Vector3.length]
  exact normalize_unit_or_nan.1 ⟨1, 0, 0⟩ (by rw [hlen]; norm_num)

/-- C1: triangulation never emits a point with non-finite coordinates: a
ray parallel to the calibrated laser plane (`dot(direction, normal) = 0`),
or an intersection behind the ray origin (negative parameter t), produces
no output point (silent rejection, `none`); and every point that is
emitted is the well-defined real vector `rotateAboutY (-rot) (origin + t *
direction)` for some t ≥ 0 with a nonzero denominator — never a NaN or
garbage value. -/
theorem triangulate_rejects_degenerate (ray : Ray) (plane : Plane) (rot : ℝ) :
    (ray.direction.dot plane.normal = 0 → triangulate ray plane rot = none) ∧
    ((plane.point.sub ray.origin).dot plane.normal / ray.direction.dot plane.normal < 0 →
      triangulate ray plane rot = none) ∧
    (∀ p, triangulate ray plane rot = some p →
      ∃ t, 0 ≤ t ∧ ray.direction.dot plane.normal ≠ 0 ∧
        p = rotateAboutY (-rot) (ray.origin.add (Vector3.smul t ray.direction))) := by
  refine ⟨?_, ?_, ?_⟩
  · intro h
    simp [triangulate, intersectRayPlane, h]
  · intro h
    by_cases hd : ray.direction.dot plane.normal = 0
    · simp [triangulate, intersectRayPlane, hd]
    · simp only [triangulate, intersectRayPlane, if_neg hd, if_pos h, Option.map_none']
  · intro p hp
    by_cases hd : ray.direction.dot plane.normal = 0
    · simp [triangulate, intersectRayPlane, hd] at hp
    · by_cases ht :
        (plane.point.sub ray.origin).dot plane.normal / ray.direction.dot plane.normal < 0
      · simp only [triangulate, intersectRayPlane, if_neg hd, if_pos ht,
          Option.map_none'] at hp
        exact absurd hp (by simp)
      · refine ⟨(plane.point.sub ray.origin).dot plane.normal /
          ray.direction.dot plane.normal, not_lt.mp ht, hd, ?_⟩
        simp only [triangulate, intersectRayPlane, if_neg hd, if_neg ht,
          Option.map_some', Option.some.injEq] at hp
        exact hp.symm

/-- Witness for C1: a concrete ray with direction (1,0,0) is parallel to
the plane with normal (0,0,1), so triangulation emits nothing. -/
theorem triangulate_rejects_degenerate_witness :
    triangulate ⟨⟨0, 0, 0⟩, ⟨1, 0, 0⟩⟩ ⟨⟨0, 0, 1⟩, ⟨0, 0, 50⟩⟩ 0 = none :=
  (triangulate_rejects_degenerate ⟨⟨0, 0, 0⟩, ⟨1, 0, 0⟩⟩ ⟨⟨0, 0, 1⟩, ⟨0, 0, 50⟩⟩ 0).1
    (by norm_num [Vector3.dot])

/-- The length of a filterMap is the number of elements the function keeps. -/
theorem length_filterMap_isSome {α β : Type} (f : α → Option β) (l : List α) :
    (l.filterMap f).length = (l.filter (fun a => (f a).isSome)).length := by
  induction l with
  | nil => rfl
  | cons a l ih =>
    cases h : f a <;>
      simp [List.filterMap_cons, h, List.filter_cons, ih]

/-- C2: for every input frame and every pair of parameters maxNumRows and
numRowBins, lowpassFilter emits exactly one representative per non-empty
row bin and nothing for an empty bin, so its output length equals the
number of non-empty bins and never exceeds numRowBins. -/
theorem lowpassFilter_count (frame : List DataPoint) (m n : ℕ) :
    (lowpassFilter frame m n).length =
      ((List.range n).filter (fun b => !(rowBin frame m n b).isEmpty)).length ∧
    (lowpassFilter frame m n).length ≤ n := by
  have hlen : (lowpassFilter frame m n).length =
      ((List.range n).filter (fun b => !(rowBin frame m n b).isEmpty)).length := by
    rw [lowpassFilter, length_filterMap_isSome]
    congr 1
    apply List.filter_congr
    intro b _
    by_cases h : (rowBin frame m n b).isEmpty <;> simp [binSelect, h]
  refine ⟨hlen, ?_⟩
  rw [hlen]
  calc ((List.range n).filter _).length ≤ (List.range n).length :=
        List.length_filter_le _ _
    _ = n := List.length_range n

/-- Grouping into contiguous runs loses and reorders nothing: flattening
the runs gives back the original sequence. -/
theorem groupRuns_flatten (l : List DataPoint) : (groupRuns l).flatten = l := by
  induction l with
  | nil => rfl
  | cons d rest ih =>
    rw [groupRuns]
    rcases hg : groupRuns rest with _ | ⟨R, gs⟩
    · simp only [hg, List.flatten] at ih ⊢
      simpa using ih.symm
    · rcases R with _ | ⟨e, R⟩
      · simp only [hg, List.flatten_cons, List.nil_append] at ih ⊢
        simp [ih]
      · by_cases htag : dataTag d = dataTag e
        · simp only [hg, List.flatten_cons] at ih ⊢
          simp [htag, ih]
        · simp only [hg, List.flatten_cons] at ih ⊢
          simp [htag, ih]

/-- A pairwise property holds of any list when the relation is universal. -/
theorem pairwise_of_true {α : Type} {R : α → α → Prop} (h : ∀ a b, R a b)
    (l : List α) : l.Pairwise R := by
  induction l with
  | nil => exact .nil
  | cons a l ih => exact .cons (fun b _ => h a b) ih

/-- Every point of the frames tagged from id i onwards carries a
pseudoFrame of at least i. -/
theorem pseudo_lower_bound (gs : List (List DataPoint)) :
    ∀ (i : ℕ) (d : DataPoint), d ∈ (assignPseudoFrames i gs).flatten →
      i ≤ d.pseudoFrame := by
  induction gs with
  | nil => intro i d h; simp [assignPseudoFrames] at h
  | cons R gs ih =>
    intro i d h
    simp only [assignPseudoFrames, List.flatten_cons, List.mem_append] at h
    rcases h with h | h
    · obtain ⟨e, _, rfl⟩ := List.mem_map.mp h
      simp [setPseudoFrame]
    · exact Nat.le_of_succ_le (ih (i + 1) d h)

/-- The pseudoFrame ids assigned from i onwards are non-decreasing along
the flattened output. -/
theorem pseudo_pairwise_assign (gs : List (List DataPoint)) :
    ∀ i : ℕ, List.Pairwise (fun a b : DataPoint => a.pseudoFrame ≤ b.pseudoFrame)
      (assignPseudoFrames i gs).flatten := by
  induction gs with
  | nil => intro i; simp [assignPseudoFrames]
  | cons R gs ih =>
    intro i
    simp only [assignPseudoFrames, List.flatten_cons]
    rw [List.pairwise_append]
    refine ⟨?_, ih (i + 1), ?_⟩
    · rw [List.pairwise_map]
      exact pairwise_of_true (fun a b => by simp [setPseudoFrame]) R
    · intro a ha b hb
      obtain ⟨e, _, rfl⟩ := List.mem_map.mp ha
      have hb' := pseudo_lower_bound gs (i + 1) b hb
      simp only [setPseudoFrame]
      omega

/-- Erasing the pseudoFrame tag commutes with the assignment pass: the
underlying points and their order are untouched. -/
theorem assign_preserves_order (gs : List (List DataPoint)) :
    ∀ i : ℕ, ((assignPseudoFrames i gs).flatten).map (setPseudoFrame 0) =
      (gs.flatten).map (setPseudoFrame 0) := by
  induction gs with
  | nil => intro i; rfl
  | cons R gs ih =>
    intro i
    have hhead : (R.map (setPseudoFrame i)).map (setPseudoFrame 0) =
        R.map (setPseudoFrame 0) := by
      rw [List.map_map]
      apply List.map_congr_left
      intro d _
      simp [Function.comp, setPseudoFrame]
    simp only [assignPseudoFrames, List.flatten_cons, List.map_append, hhead,
      ih (i + 1)]

/-- C4: for every DataPoint sequence ordered by ascending capture frame,
the pseudoFrame values assigned by frame assembly are monotonically
non-decreasing along the assembled output, and assembly never reorders
capture order (erasing the pseudoFrame tags, the output is the input). -/
theorem pseudoFrame_monotone (results : List DataPoint)
    (hsorted : List.Pairwise (fun a b : DataPoint => a.frame ≤ b.frame) results) :
    List.Pairwise (fun a b : DataPoint => a.pseudoFrame ≤ b.pseudoFrame)
      (readFrames results).flatten ∧
    ((readFrames results).flatten).map (setPseudoFrame 0) =
      results.map (setPseudoFrame 0) := by
  refine ⟨pseudo_pairwise_assign (groupRuns results) 0, ?_⟩
  rw [readFrames, assign_preserves_order (groupRuns results) 0,
    groupRuns_flatten]

/-- Witness for C4: frame assembly of a concrete two-frame sequence,
sorted by capture frame, yields non-decreasing pseudoFrame values and
preserves the order of the points. -/
theorem pseudoFrame_monotone_witness :
    List.Pairwise (fun a b : DataPoint => a.pseudoFrame ≤ b.pseudoFrame)
      (readFrames [⟨⟨0, 0⟩, default, 0, 0, 0, 0, 0⟩,
        ⟨⟨0, 1⟩, default, 0, 1, 0, 0, 1⟩]).flatten ∧
    ((readFrames [⟨⟨0, 0⟩, default, 0, 0, 0, 0, 0⟩,
        ⟨⟨0, 1⟩, default, 0, 1, 0, 0, 1⟩]).flatten).map (setPseudoFrame 0) =
      [⟨⟨0, 0⟩, default, 0, 0, 0, 0, 0⟩,
        ⟨⟨0, 1⟩, default, 0, 1, 0, 0, 1⟩].map (setPseudoFrame 0) :=
  pseudoFrame_monotone
    [⟨⟨0, 0⟩, default, 0, 0, 0, 0, 0⟩, ⟨⟨0, 1⟩, default, 0, 1, 0, 0, 1⟩]
    (by decide)

/-- C6: the bin boundaries of lowpassFilter are deterministic functions of
maxNumRows and numRowBins only: a point's bin is characterized purely by
its own pixel row against the equal-span boundaries b*m/n and (b+1)*m/n,
independent of the rest of the data; hence two runs on identical input
frames with identical parameters produce identical outputs. -/
theorem lowpassFilter_deterministic (m n : ℕ) (hm : 0 < m) (hn : 0 < n) :
    (∀ (d : DataPoint) (b : ℕ),
      (binIndex m n d = (b : ℤ) ↔
        (b : ℚ) * m / n ≤ d.pixel.y ∧ d.pixel.y < ((b : ℚ) + 1) * m / n)) ∧
    ∀ f g : List DataPoint, f = g → lowpassFilter f m n = lowpassFilter g m n := by
  have hM : (0:ℚ) < (m:ℚ) := by exact_mod_cast hm
  have hN : (0:ℚ) < (n:ℚ) := by exact_mod_cast hn
  constructor
  · intro d b
    rw [binIndex, Int.floor_eq_iff]
    push_cast
    rw [le_div_iff₀ hM, div_lt_iff₀ hM, div_le_iff₀ hN, lt_div_iff₀ hN]
  · intro f g h
    rw [h]

/-- Witness for C6: with maxNumRows = 10 and numRowBins = 2, the point at
pixel row 3 lies in bin 0 because 0 ≤ 3 < 5; the boundary characterization
follows from the theorem at those concrete parameters. -/
theorem lowpassFilter_deterministic_witness :
    binIndex 10 2 ⟨⟨0, 3⟩, default, 0, 0, 0, 0, 0⟩ = 0 :=
  ((lowpassFilter_deterministic 10 2 (by norm_num) (by norm_num)).1
    ⟨⟨0, 3⟩, default, 0, 0, 0, 0, 0⟩ 0).mpr ⟨by norm_num, by norm_num⟩

/-- The average of a one-element bin is that element. -/
theorem computeAverage_singleton (d : DataPoint) : computeAverage [d] = d := by
  cases d with
  | mk pixel point rotation frame laserSide pseudoFrame index =>
    cases pixel
    cases point
    simp [computeAverage, avgQ]

/-- Membership test for a bin extended by one point. -/
theorem rowBin_cons (m n : ℕ) (d : DataPoint) (R : List DataPoint) (b : ℕ) :
    rowBin (d :: R) m n b =
      if binIndex m n d = (b : ℤ) then d :: rowBin R m n b
      else rowBin R m n b := by
  simp only [rowBin, List.filter_cons]
  by_cases h : binIndex m n d = (b : ℤ) <;> simp [h]

/-- A list's map can be dropped when the function fixes every member. -/
theorem map_eq_self_of_forall {α : Type} {l : List α} {f : α → α}
    (h : ∀ a ∈ l, f a = a) : l.map f = l := by
  induction l with
  | nil => rfl
  | cons a l ih =>
    simp only [List.map_cons, h a (by simp)]
    rw [ih (fun b hb => h b (by simp [hb]))]

/-- Overwriting the pseudoFrame with its current value changes nothing. -/
theorem setPseudoFrame_self (i : ℕ) (d : DataPoint) (h : d.pseudoFrame = i) :
    setPseudoFrame i d = d := by
  cases d
  subst h
  rfl

/-- Every member of a list appears in its enumeration from any start. -/
theorem mem_enumFrom_of_mem {α : Type} {a : α} {l : List α} (h : a ∈ l) :
    ∀ s : ℕ, ∃ i, (i, a) ∈ l.enumFrom s := by
  induction l with
  | nil => cases h
  | cons x l ih =>
    intro s
    rcases List.mem_cons.mp h with rfl | h'
    · exact ⟨s, by simp [List.enumFrom]⟩
    · obtain ⟨i, hi⟩ := ih h' (s + 1)
      exact ⟨i, by simp [List.enumFrom, hi]⟩

/-- Reassigning pseudoFrame ids is the identity when every logical frame
already carries the id it would be assigned. -/
theorem assignPseudoFrames_id (gs : List (List DataPoint)) :
    ∀ i : ℕ, (∀ p ∈ gs.enumFrom i, ∀ d ∈ p.2, d.pseudoFrame = p.1) →
      assignPseudoFrames i gs = gs := by
  induction gs with
  | nil => intro i _; rfl
  | cons R gs ih =>
    intro i h
    have hR : ∀ d ∈ R, d.pseudoFrame = i := h (i, R) (by simp [List.enumFrom])
    rw [assignPseudoFrames]
    congr 1
    · exact map_eq_self_of_forall (fun d hd => setPseudoFrame_self i d (hR d hd))
    · exact ih (i + 1) (fun p hp => h p (by simp [List.enumFrom, hp]))

/-- Core of the idempotence argument: over a span of bins [s, s + len),
selecting the representative of each populated bin of a frame whose
members occupy strictly increasing bins inside that span reproduces the
frame itself. -/
theorem filterMap_binSelect_increasing (m n : ℕ) :
    ∀ (len s : ℕ) (R : List DataPoint),
      List.Pairwise (fun a b : ℤ => a < b) (R.map (binIndex m n)) →
      (∀ d ∈ R, (s : ℤ) ≤ binIndex m n d ∧ binIndex m n d < (s : ℤ) + len) →
      (List.range' s len).filterMap (binSelect R m n) = R := by
  intro len
  induction len with
  | zero =>
    intro s R _ hbound
    cases R with
    | nil => rfl
    | cons d R' =>
      have := hbound d (by simp)
      omega
  | succ len ih =>
    intro s R hchain hbound
    have hrange : List.range' s (len + 1) = s :: List.range' (s + 1) len := rfl
    cases R with
    | nil =>
      rw [hrange]
      apply List.filterMap_eq_nil.mpr
      intro b _
      rfl
    | cons d R' =>
      have hb0 := hbound d (by simp)
      have hchain' := hchain
      rw [List.map_cons, List.pairwise_cons] at hchain'
      have htail_gt : ∀ e ∈ R', binIndex m n d < binIndex m n e := by
        intro e he
        exact hchain'.1 (binIndex m n e) (List.mem_map_of_mem _ he)
      have htail_chain :
          List.Pairwise (fun a b : ℤ => a < b) (R'.map (binIndex m n)) :=
        hchain'.2
      rw [hrange]
      by_cases hb : binIndex m n d = (s : ℤ)
      · have hbinR' : rowBin R' m n s = [] := by
          apply List.filter_eq_nil.mpr
          intro e he
          simp only [decide_eq_true_eq]
          have := htail_gt e he
          omega
        have hsel : binSelect (d :: R') m n s = some d := by
          rw [binSelect]
          simp only [rowBin_cons, hb, if_pos rfl, hbinR']
          simp [computeAverage_singleton]
        rw [List.filterMap_cons_some hsel]
        congr 1
        have hcong : ∀ b ∈ List.range' (s + 1) len,
            binSelect (d :: R') m n b = binSelect R' m n b := by
          intro b hbmem
          have hbge : s + 1 ≤ b := (List.mem_range'_1.mp hbmem).1
          have hne : binIndex m n d ≠ (b : ℤ) := by
            rw [hb]; omega
          rw [binSelect, binSelect, rowBin_cons, if_neg hne]
        rw [List.filterMap_congr hcong]
        apply ih (s + 1) R' htail_chain
        intro e he
        have h1 := htail_gt e he
        have h2 := hbound e (by simp [he])
        omega
      · have hgt : (s : ℤ) < binIndex m n d := lt_of_le_of_ne hb0.1 (Ne.symm hb)
        have hsel : binSelect (d :: R') m n s = none := by
          rw [binSelect]
          have hempty : rowBin (d :: R') m n s = [] := by
            rw [rowBin_cons, if_neg hb]
            apply List.filter_eq_nil.mpr
            intro e he
            simp only [decide_eq_true_eq]
            have := htail_gt e he
            omega
          simp [hempty]
        rw [List.filterMap_cons_none hsel]
        apply ih (s + 1) (d :: R') hchain
        intro e he
        rcases List.mem_cons.mp he with rfl | he'
        · constructor
          · omega
          · have := hb0.2; push_cast at this ⊢; omega
        · have h1 := htail_gt e he'
          have h2 := hbound e (by simp [he'])
          constructor
          · omega
          · have := h2.2; push_cast at this ⊢; omega

/-- lowpassFilter fixes a frame whose members occupy strictly increasing
valid row bins. -/
theorem lowpassFilter_id (m n : ℕ) (R : List DataPoint)
    (hchain : List.Pairwise (fun a b : ℤ => a < b) (R.map (binIndex m n)))
    (hbound : ∀ d ∈ R, 0 ≤ binIndex m n d ∧ binIndex m n d < (n : ℤ)) :
    lowpassFilter R m n = R := by
  rw [lowpassFilter, List.range_eq_range']
  apply filterMap_binSelect_increasing m n n 0 R hchain
  intro d hd
  have := hbound d hd
  constructor
  · simpa using this.1
  · simpa using this.2

/-- C3: running the Frame Assembler/Filter (readNextFrame grouping with
pseudoFrame assignment followed by per-frame lowpassFilter) on input that
is already filtered and already bin-aligned is a no-op: the output
sequence equals the input sequence. -/
theorem filterPipeline_idempotent (m n : ℕ) (ys : List DataPoint)
    (h : alreadyAssembled m n ys) :
    filterAssembledFrames ys m n = ys := by
  have hassign : assignPseudoFrames 0 (groupRuns ys) = groupRuns ys :=
    assignPseudoFrames_id _ 0 (fun p hp => (h p hp).1)
  rw [filterAssembledFrames, readFrames, hassign]
  have hmap : (groupRuns ys).map (fun R => lowpassFilter R m n) = groupRuns ys := by
    apply map_eq_self_of_forall
    intro R hR
    obtain ⟨i, hi⟩ := mem_enumFrom_of_mem hR 0
    have hprops := h (i, R) hi
    have hchain : List.Pairwise (fun a b : ℤ => a < b)
        (R.map (binIndex m n)) :=
      List.chain'_iff_pairwise.mp hprops.2.1
    exact lowpassFilter_id m n R hchain hprops.2.2
  rw [hmap, groupRuns_flatten]

/-- Witness for C3: a concrete already-filtered, bin-aligned one-point
frame (pixel row 3 in bin 0 of 2 bins over 10 rows, pseudoFrame 0) passes
through the assembler/filter unchanged. -/
theorem filterPipeline_idempotent_witness :
    filterAssembledFrames [⟨⟨0, 3⟩, default, 0, 0, 0, 0, 0⟩] 10 2 =
      [⟨⟨0, 3⟩, default, 0, 0, 0, 0, 0⟩] :=
  filterPipeline_idempotent 10 2 [⟨⟨0, 3⟩, default, 0, 0, 0, 0, 0⟩] (by
    intro p hp
    have henum : List.enumFrom 0 (groupRuns [⟨⟨0, 3⟩, default, 0, 0, 0, 0, 0⟩]) =
        [(0, [⟨⟨0, 3⟩, default, 0, 0, 0, 0, 0⟩])] := rfl
    rw [henum] at hp
    have hp' : p = (0, [⟨⟨0, 3⟩, default, 0, 0, 0, 0, 0⟩]) := by
      simpa using hp
    subst hp'
    refine ⟨by decide, by simp, ?_⟩
    intro e he
    rw [List.mem_singleton] at he
    subst he
    constructor <;> norm_num [binIndex])

/-- A quad contributes either no triangle or exactly two (six indices). -/
theorem quadTriangles_length (cloud : List ColoredPoint) (mE : ℚ) (a b c d : ℕ) :
    (quadTriangles cloud mE a b c d).length % 3 = 0 := by
  rw [quadTriangles]
  split
  · split <;> simp
  · rfl

/-- Every index a quad contributes is one of its four corners. -/
theorem mem_quadTriangles (cloud : List ColoredPoint) (mE : ℚ) (a b c d t : ℕ)
    (h : t ∈ quadTriangles cloud mE a b c d) : t = a ∨ t = b ∨ t = c ∨ t = d := by
  rw [quadTriangles] at h
  split at h
  · split at h <;> · simp at h; tauto
  · simp at h

/-- Flattening lists whose lengths are all multiples of 3 yields a length
that is a multiple of 3. -/
theorem flatten_length_mod3 {L : List (List ℕ)}
    (h : ∀ l ∈ L, l.length % 3 = 0) : L.flatten.length % 3 = 0 := by
  induction L with
  | nil => rfl
  | cons l L ih =>
    rw [List.flatten_cons, List.length_append]
    have h1 := h l (by simp)
    have h2 := ih (fun x hx => h x (by simp [hx]))
    omega

/-- C7: every FaceMap the Mesh Builder produces has a triangles sequence
whose length is a multiple of 3, and every index in it references a valid
position of the final point cloud, provided the grid handed to the
builder references only surviving cloud positions (pruning happened
before mesh building, so no index is stale). -/
theorem buildMesh_valid (cloud : List ColoredPoint) (grid : List (List (Option ℕ)))
    (maxEdgeSq : ℚ)
    (h : ∀ col ∈ grid, ∀ cell ∈ col, ∀ i : ℕ, cell = some i → i < cloud.length) :
    (buildMesh cloud grid maxEdgeSq).triangles.length % 3 = 0 ∧
    ∀ t ∈ (buildMesh cloud grid maxEdgeSq).triangles, t < cloud.length := by
  constructor
  · apply flatten_length_mod3
    intro l hl
    obtain ⟨p, _, rfl⟩ := List.mem_map.mp hl
    apply flatten_length_mod3
    intro l2 hl2
    obtain ⟨q, _, rfl⟩ := List.mem_map.mp hl2
    obtain ⟨⟨oa, ob⟩, oc, od⟩ := q
    rcases oa with _ | a
    · rfl
    rcases ob with _ | b
    · rfl
    rcases oc with _ | c
    · rfl
    rcases od with _ | d
    · rfl
    exact quadTriangles_length cloud maxEdgeSq a b c d
  · intro t ht
    simp only [buildMesh, List.mem_flatten, List.mem_map] at ht
    obtain ⟨l, ⟨p, hp, rfl⟩, htl⟩ := ht
    have hcolA : p.1 ∈ grid := (List.of_mem_zip hp).1
    have hcolB : p.2 ∈ grid :=
      List.mem_of_mem_tail (List.of_mem_zip hp).2
    simp only [rowQuadTriangles, List.mem_flatten, List.mem_map] at htl
    obtain ⟨l2, ⟨q, hq, rfl⟩, htl2⟩ := htl
    have hq1 := (List.of_mem_zip hq).1
    have hq2 := List.mem_of_mem_tail (List.of_mem_zip hq).2
    obtain ⟨⟨oa, ob⟩, oc, od⟩ := q
    rcases oa with _ | a
    · simp at htl2
    rcases ob with _ | b
    · simp at htl2
    rcases oc with _ | c
    · simp at htl2
    rcases od with _ | d
    · simp at htl2
    have ha : (some a : Option ℕ) ∈ p.1 := (List.of_mem_zip hq1).1
    have hb : (some b : Option ℕ) ∈ p.2 := (List.of_mem_zip hq1).2
    have hc : (some c : Option ℕ) ∈ p.1 := (List.of_mem_zip hq2).1
    have hd : (some d : Option ℕ) ∈ p.2 := (List.of_mem_zip hq2).2
    rcases mem_quadTriangles cloud maxEdgeSq a b c d t htl2 with rfl | rfl | rfl | rfl
    · exact h p.1 hcolA (some t) ha t rfl
    · exact h p.2 hcolB (some t) hb t rfl
    · exact h p.1 hcolA (some t) hc t rfl
    · exact h p.2 hcolB (some t) hd t rfl

/-- Witness for C7: a 2x2 grid over a four-point cloud with a generous
edge limit; the produced triangle list has length a multiple of 3 and
every index is below 4. -/
theorem buildMesh_valid_witness :
    (buildMesh
        [⟨0, 0, 0, ⟨0, 0, 0⟩, 0, 0, 0⟩, ⟨1, 0, 0, ⟨0, 0, 0⟩, 0, 0, 0⟩,
          ⟨0, 1, 0, ⟨0, 0, 0⟩, 0, 0, 0⟩, ⟨1, 1, 0, ⟨0, 0, 0⟩, 0, 0, 0⟩]
        [[some 0, some 2], [some 1, some 3]] 100).triangles.length % 3 = 0 ∧
    ∀ t ∈ (buildMesh
        [⟨0, 0, 0, ⟨0, 0, 0⟩, 0, 0, 0⟩, ⟨1, 0, 0, ⟨0, 0, 0⟩, 0, 0, 0⟩,
          ⟨0, 1, 0, ⟨0, 0, 0⟩, 0, 0, 0⟩, ⟨1, 1, 0, ⟨0, 0, 0⟩, 0, 0, 0⟩]
        [[some 0, some 2], [some 1, some 3]] 100).triangles,
      t < ([⟨0, 0, 0, ⟨0, 0, 0⟩, 0, 0, 0⟩, ⟨1, 0, 0, ⟨0, 0, 0⟩, 0, 0, 0⟩,
          ⟨0, 1, 0, ⟨0, 0, 0⟩, 0, 0, 0⟩,
          ⟨1, 1, 0, ⟨0, 0, 0⟩, 0, 0, 0⟩] : List ColoredPoint).length :=
  buildMesh_valid
    [⟨0, 0, 0, ⟨0, 0, 0⟩, 0, 0, 0⟩, ⟨1, 0, 0, ⟨0, 0, 0⟩, 0, 0, 0⟩,
      ⟨0, 1, 0, ⟨0, 0, 0⟩, 0, 0, 0⟩, ⟨1, 1, 0, ⟨0, 0, 0⟩, 0, 0, 0⟩]
    [[some 0, some 2], [some 1, some 3]] 100
    (by
      intro col hcol cell hcell i hi
      fin_cases hcol <;> fin_cases hcell <;>
        (injection hi with hi; subst hi; decide))

/-- Parsing one written vertex record recovers the reparsed vertex and
leaves the remaining tokens untouched. -/
theorem parseVertex_write (fmt : PlyDataFormat) (unit : UnitOfLength)
    (v : ColoredPoint) (rest : List PlyToken) :
    parseVertex (writeVertex fmt unit v ++ rest) =
      some (reparsedVertex fmt unit v, rest) := rfl

/-- Parsing the declared number of written vertex records recovers the
reparsed vertices in order. -/
theorem parseVertices_write (fmt : PlyDataFormat) (unit : UnitOfLength)
    (cloud : List ColoredPoint) (rest : List PlyToken) :
    parseVertices cloud.length ((cloud.map (writeVertex fmt unit)).flatten ++ rest) =
      some (cloud.map (reparsedVertex fmt unit), rest) := by
  induction cloud with
  | nil => rfl
  | cons v vs ih =>
    have hsplit : ((v :: vs).map (writeVertex fmt unit)).flatten ++ rest =
        writeVertex fmt unit v ++
          ((vs.map (writeVertex fmt unit)).flatten ++ rest) := by
      simp [List.append_assoc]
    rw [List.length_cons, hsplit]
    simp only [parseVertices, parseVertex_write, ih, List.map_cons]

/-- Parsing one written face record recovers the triangle and the
remaining tokens. -/
theorem parseFace_write (f : ℕ × ℕ × ℕ) (rest : List PlyToken) :
    parseFace (writeFace f ++ rest) = some (f, rest) := by
  obtain ⟨a, b, c⟩ := f
  rfl

/-- Parsing the declared number of written face records recovers the face
list unchanged. -/
theorem parseFaces_write (faces : List (ℕ × ℕ × ℕ)) (rest : List PlyToken) :
    parseFaces faces.length ((faces.map writeFace).flatten ++ rest) =
      some (faces, rest) := by
  induction faces with
  | nil => rfl
  | cons f fs ih =>
    have hsplit : ((f :: fs).map writeFace).flatten ++ rest =
        writeFace f ++ ((fs.map writeFace).flatten ++ rest) := by
      simp [List.append_assoc]
    rw [List.length_cons, hsplit]
    simp only [parseFaces, parseFace_write, ih, List.map_cons]

/-- Rounding to six decimal places moves a value by at most 1/10000. -/
theorem quantize_close (q : ℚ) : |quantize q - q| ≤ 1 / 10000 := by
  have h1 : ((⌊q * 1000000 + 1 / 2⌋ : ℤ) : ℚ) ≤ q * 1000000 + 1 / 2 :=
    Int.floor_le _
  have h2 : q * 1000000 + 1 / 2 < (⌊q * 1000000 + 1 / 2⌋ : ℤ) + 1 :=
    Int.lt_floor_add_one _
  rw [quantize, abs_le]
  push_cast at h2
  constructor <;> linarith

/-- Serialization moves a scalar by at most 1/10000 in either format. -/
theorem encodeScalar_close (fmt : PlyDataFormat) (q : ℚ) :
    |encodeScalar fmt q - q| ≤ 1 / 10000 := by
  cases fmt
  · exact quantize_close q
  · norm_num [encodeScalar]

/-- C5: exporting a point cloud and face list to PLY in either ASCII or
binary mode and re-parsing the written payload reproduces the same vertex
count and the same face index list, and every vertex position is
reproduced within 1/10000 absolute tolerance of its unit-converted
value. -/
theorem ply_roundtrip (fmt : PlyDataFormat) (unit : UnitOfLength)
    (cloud : List ColoredPoint) (faces : List (ℕ × ℕ × ℕ)) :
    parsePly (writePly fmt unit cloud faces) =
      some (cloud.map (reparsedVertex fmt unit), faces) ∧
    (cloud.map (reparsedVertex fmt unit)).length = cloud.length ∧
    ∀ v ∈ cloud,
      |(reparsedVertex fmt unit v).x -
          ConvertUnitOfLength v.x .UL_MILLIMETERS unit| ≤ 1 / 10000 ∧
      |(reparsedVertex fmt unit v).y -
          ConvertUnitOfLength v.y .UL_MILLIMETERS unit| ≤ 1 / 10000 ∧
      |(reparsedVertex fmt unit v).z -
          ConvertUnitOfLength v.z .UL_MILLIMETERS unit| ≤ 1 / 10000 := by
  refine ⟨?_, by simp, ?_⟩
  · have hv := parseVertices_write fmt unit cloud ((faces.map writeFace).flatten)
    have hf : parseFaces faces.length ((faces.map writeFace).flatten) =
        some (faces, []) := by
      have := parseFaces_write faces []
      simpa using this
    simp only [writePly, parsePly, hv, hf, List.isEmpty_nil, if_true]
  · intro v _
    refine ⟨?_, ?_, ?_⟩ <;>
      · simp only [reparsedVertex]
        exact encodeScalar_close fmt _

end freelss
